import Mathlib

/-!
Shallow embedding of the pixelflut client (src/main.rs, src/conn.rs,
src/edges.rs, src/filter/*.rs) and proofs about its specification claims.

Machine integers (`u32`, `u8`, `i32`, `i8`, `usize`) are modelled as `Nat`
or `Int`; wrap-around is made explicit with `% 2 ^ 32` exactly where the
Rust code can overflow.
-/

/-- RGBA color, `image::Rgba<u8>`: channel `value[0] = r`, `value[1] = g`,
`value[2] = b`, `value[3] = a`. -/
structure Rgba where
  r : Nat
  g : Nat
  b : Nat
  a : Nat
deriving DecidableEq, Repr

/-- `Edge` from src/edges.rs: a bit each for the four sides. -/
inductive Edge where
  | Top
  | Right
  | Bottom
  | Left
deriving DecidableEq, Repr

/-- `Edge as u8` discriminant values from src/edges.rs
(`Top = 1`, `Right = 1 << 1`, `Bottom = 1 << 2`, `Left = 1 << 3`). -/
def Edge.toU8 : Edge → Nat
  | .Top => 1
  | .Right => 2
  | .Bottom => 4
  | .Left => 8

/-- `Edges(u8)` bitmask from src/edges.rs. -/
structure Edges where
  val : Nat
deriving DecidableEq, Repr

/-- `Edges::new`: OR together the discriminants of the given edges. -/
def Edges.new (edges : List Edge) : Edges :=
  ⟨edges.foldl (fun v e => v ||| e.toU8) 0⟩

/-- `Edges::default()`: the all-zero bitmask. -/
def Edges.empty : Edges := ⟨0⟩

/-- `Edges::has_edge`: `self.0 & edge as u8 > 0`. -/
def Edges.hasEdge (es : Edges) (e : Edge) : Bool :=
  es.val &&& e.toU8 > 0

/-- `Pixel` from src/main.rs: canvas coordinates, color, edge flags. -/
structure Pixel where
  x : Nat
  y : Nat
  value : Rgba
  edges : Edges
deriving DecidableEq, Repr

/-! ## src/conn.rs — striped shard of one Canvas Link

In `connection` (src/conn.rs lines 27-40) each link computes
`num_px = buffer.len() / num_conns` plus one when
`buffer.len() % num_conns > conn_id`, and writes the pixels at indices
`idx = i * num_conns + conn_id` for `i in 0..num_px`. -/

/-- The `num_px` computation of `connection` for a link `connId` out of
`numConns` links over a buffer of length `len`. -/
def numPx (numConns len connId : Nat) : Nat :=
  len / numConns + (if len % numConns > connId then 1 else 0)

/-- The list of buffer indices written by link `connId`:
`idx = i * numConns + connId` for `i in 0..numPx`. -/
def shardIndices (numConns len connId : Nat) : List Nat :=
  (List.range (numPx numConns len connId)).map (fun i => i * numConns + connId)

lemma numPx_iff (numConns len connId : Nat) (hN : 0 < numConns)
    (hi : connId < numConns) (j : Nat) :
    j < numPx numConns len connId ↔ j * numConns + connId < len := by
  set q := len / numConns with hq
  set r := len % numConns with hr
  have hdm : q * numConns + r = len := by
    rw [Nat.mul_comm]; exact Nat.div_add_mod len numConns
  have hrN : r < numConns := Nat.mod_lt _ hN
  unfold numPx
  rw [← hq, ← hr]
  constructor
  · intro hj
    by_cases hcase : r > connId
    · simp only [hcase, if_pos] at hj
      have hjq : j ≤ q := by omega
      have : j * numConns ≤ q * numConns := Nat.mul_le_mul_right _ hjq
      omega
    · simp only [hcase, if_neg, not_false_iff] at hj
      have hjq : j + 1 ≤ q := by omega
      have : (j + 1) * numConns ≤ q * numConns := Nat.mul_le_mul_right _ hjq
      have hexp : (j + 1) * numConns = j * numConns + numConns := by ring
      omega
  · intro hlt
    by_contra hge
    push_neg at hge
    by_cases hcase : r > connId
    · simp only [hcase, if_pos] at hge
      have hjq : q + 1 ≤ j := by omega
      have : (q + 1) * numConns ≤ j * numConns := Nat.mul_le_mul_right _ hjq
      have hexp : (q + 1) * numConns = q * numConns + numConns := by ring
      omega
    · simp only [hcase, if_neg, not_false_iff] at hge
      have : q * numConns ≤ j * numConns := Nat.mul_le_mul_right _ hge
      omega

lemma shardIndices_mem (numConns len connId : Nat) (hN : 0 < numConns)
    (hi : connId < numConns) (k : Nat) :
    k ∈ shardIndices numConns len connId ↔ k < len ∧ k % numConns = connId := by
  unfold shardIndices
  simp only [List.mem_map, List.mem_range]
  constructor
  · rintro ⟨j, hj, rfl⟩
    refine ⟨(numPx_iff numConns len connId hN hi j).mp hj, ?_⟩
    rw [Nat.add_comm, Nat.add_mul_mod_self_right, Nat.mod_eq_of_lt hi]
  · rintro ⟨hk, hmod⟩
    have hdm : k / numConns * numConns + k % numConns = k := by
      rw [Nat.mul_comm]; exact Nat.div_add_mod k numConns
    refine ⟨k / numConns, ?_, ?_⟩
    · rw [numPx_iff numConns len connId hN hi]
      omega
    · omega

lemma shardIndices_length (numConns len connId : Nat) :
    (shardIndices numConns len connId).length = numPx numConns len connId := by
  simp [shardIndices]

lemma ceil_div_of_mod_pos (len numConns : Nat) (hN : 0 < numConns)
    (hr : 0 < len % numConns) :
    (len + numConns - 1) / numConns = len / numConns + 1 := by
  set q := len / numConns with hq
  set r := len % numConns with hr'
  have hdm : q * numConns + r = len := by
    rw [Nat.mul_comm]; exact Nat.div_add_mod len numConns
  have hrN : r < numConns := Nat.mod_lt _ hN
  apply Nat.div_eq_of_lt_le
  · have hexp : (q + 1) * numConns = q * numConns + numConns := by ring
    omega
  · have hexp : (q + 1 + 1) * numConns = q * numConns + numConns + numConns := by
      ring
    omega

/-- C1. Striped partitioning: for `N ≥ 1` links over a buffer of length `L`,
link `i < N` writes exactly the indices `{i, i+N, i+2N, …}` below `L`
(equivalently, the `k < L` with `k % N = i`); each shard has
`⌊L/N⌋ + 1` indices iff `L mod N > i` and `⌊L/N⌋` otherwise, hence always
`⌈L/N⌉` or `⌊L/N⌋`; every index in `[0, L)` belongs to exactly one link's
shard (so the shards cover the full range); and with 3 links over an
8-pixel buffer the shards are `{0,3,6}`, `{1,4,7}`, `{2,5}`. -/
theorem shard_striped_partition (N L : Nat) (hN : 1 ≤ N) :
    (∀ i, i < N → ∀ k, k ∈ shardIndices N L i ↔ k < L ∧ k % N = i) ∧
    (∀ i, i < N → (shardIndices N L i).length =
        (if L % N > i then L / N + 1 else L / N)) ∧
    (∀ i, i < N → (shardIndices N L i).length = (L + N - 1) / N ∨
        (shardIndices N L i).length = L / N) ∧
    (∀ k, k < L → ∃! i, i < N ∧ k ∈ shardIndices N L i) ∧
    (shardIndices 3 8 0 = [0, 3, 6] ∧ shardIndices 3 8 1 = [1, 4, 7] ∧
      shardIndices 3 8 2 = [2, 5]) := by
  have hN0 : 0 < N := hN
  refine ⟨?_, ?_, ?_, ?_, by decide⟩
  · intro i hi k
    exact shardIndices_mem N L i hN0 hi k
  · intro i hi
    rw [shardIndices_length]
    unfold numPx
    by_cases hcase : L % N > i
    · rw [if_pos hcase, if_pos hcase]
    · rw [if_neg hcase, if_neg hcase]
      omega
  · intro i hi
    rw [shardIndices_length]
    unfold numPx
    by_cases hcase : L % N > i
    · left
      rw [if_pos hcase, ceil_div_of_mod_pos L N hN0 (by omega)]
    · right
      rw [if_neg hcase]
      omega
  · intro k hk
    refine ⟨k % N, ⟨Nat.mod_lt _ hN0, ?_⟩, ?_⟩
    · exact (shardIndices_mem N L (k % N) hN0 (Nat.mod_lt _ hN0) k).mpr
        ⟨hk, rfl⟩
    · rintro i ⟨hi, hmem⟩
      exact ((shardIndices_mem N L i hN0 hi k).mp hmem).2.symm

/-- Witness for C1 at `N = 3`, `L = 8`. -/
theorem shard_striped_partition_witness :
    1 ≤ 3 ∧ (shardIndices 3 8 0 = [0, 3, 6] ∧ shardIndices 3 8 1 = [1, 4, 7] ∧
      shardIndices 3 8 2 = [2, 5]) :=
  ⟨by decide, (shard_striped_partition 3 8 (by decide)).2.2.2.2⟩

/-! ## src/conn.rs — per-pixel write retry loop of a Canvas Link

`connection` (src/conn.rs lines 51-60) formats one draw command per pixel
and loops: on `Err` it increments `errors`, reconnects, and retries the
same write; on `Ok` it breaks. The outcome of each successive write
attempt is modelled as a `Bool` (`true` = `Ok`); `some e` means the write
eventually succeeded after `e` failed attempts, `none` means every
modelled attempt failed (the Rust loop would still be retrying — the
pixel is never aborted or skipped). -/

/-- The unbounded retry loop for one pixel's draw command. -/
def retryWrite : List Bool → Option Nat
  | [] => none
  | ok :: rest => if ok then some 0 else (retryWrite rest).map (· + 1)

/-- One link's draw cycle over its shard: pixel `j` of the shard sees the
write-attempt outcomes `attempts[j]`; the cycle's error count (the value
sent back over the `oneshot` channel) is the sum of the per-pixel error
counts, and it exists only when every pixel of the shard was eventually
written successfully. -/
def shardCycleErrors : List (List Bool) → Option Nat
  | [] => some 0
  | outs :: rest =>
    match retryWrite outs, shardCycleErrors rest with
    | some e, some s => some (e + s)
    | _, _ => none

lemma retryWrite_replicate (k : Nat) :
    retryWrite (List.replicate k false ++ [true]) = some k := by
  induction k with
  | zero => rfl
  | succ n ih => simp [List.replicate_succ, retryWrite, ih]

lemma retryWrite_isSome (outs : List Bool) :
    (retryWrite outs).isSome ↔ true ∈ outs := by
  induction outs with
  | nil => simp [retryWrite]
  | cons ok rest ih =>
    cases ok
    · simpa [retryWrite] using ih
    · simp [retryWrite]

lemma retryWrite_spec (outs : List Bool) (e : Nat)
    (h : retryWrite outs = some e) :
    (∀ j, j < e → outs.getD j true = false) ∧ outs.getD e false = true := by
  induction outs generalizing e with
  | nil => simp [retryWrite] at h
  | cons ok rest ih =>
    cases ok
    · simp only [retryWrite, if_neg Bool.false_ne_true, Option.map_eq_some']
        at h
    
      obtain ⟨e', he', rfl⟩ := h
      refine ⟨?_, (ih e' he').2⟩
      intro j hj
      cases j with
      | zero => rfl
      | succ j' => exact (ih e' he').1 j' (by omega)
    · simp only [retryWrite, if_true] at h
      have he : e = 0 := by
        cases h
        rfl
      subst he
      exact ⟨fun j hj => absurd hj (Nat.not_lt_zero j), rfl⟩

lemma shardCycleErrors_isSome (l : List (List Bool)) :
    (shardCycleErrors l).isSome ↔ ∀ outs ∈ l, true ∈ outs := by
  induction l with
  | nil => simp [shardCycleErrors]
  | cons outs rest ih =>
    have key : ∀ (a b : Option Nat),
        (match a, b with
          | some e, some s => some (e + s)
          | _, _ => none).isSome = (a.isSome && b.isSome) := by
      rintro (_ | e) (_ | s) <;> rfl
    rw [shardCycleErrors, key]
    simp only [Bool.and_eq_true, retryWrite_isSome, ih, List.mem_cons]
    constructor
    · rintro ⟨h1, h2⟩ o ho
      rcases ho with rfl | ho
      · exact h1
      · exact h2 o ho
    · intro h
      exact ⟨h outs (Or.inl rfl), fun o ho => h o (Or.inr ho)⟩

/-- C4. Canvas Link write retry: a pixel whose first `k` write attempts
fail and whose `(k+1)`-st succeeds is reported with exactly `k` errors,
for every `k` (retries are unbounded and each failed attempt adds exactly
1); the write loop terminates exactly when some attempt succeeds (a pixel
is never aborted or skipped); when it reports `e` errors, attempts
`0..e-1` all failed and attempt `e` succeeded; a shard's cycle completes
and reports a sum only when every one of its pixels was eventually
written; and a link whose first write fails once then succeeds reports a
cycle error count of exactly 1. -/
theorem link_write_retry :
    (∀ k, retryWrite (List.replicate k false ++ [true]) = some k) ∧
    (∀ outs, (retryWrite outs).isSome ↔ true ∈ outs) ∧
    (∀ outs e, retryWrite outs = some e →
      (∀ j, j < e → outs.getD j true = false) ∧ outs.getD e false = true) ∧
    (∀ l, (shardCycleErrors l).isSome ↔ ∀ outs ∈ l, true ∈ outs) ∧
    shardCycleErrors [[false, true]] = some 1 :=
  ⟨retryWrite_replicate, retryWrite_isSome, retryWrite_spec,
    shardCycleErrors_isSome, by decide⟩

/-- Witness for C4: the fail-once-then-succeed pixel. -/
theorem link_write_retry_witness :
    retryWrite [false, true] = some 1 ∧
    (∀ j, j < 1 → [false, true].getD j true = false) ∧
    [false, true].getD 1 false = true :=
  ⟨link_write_retry.1 1,
    (link_write_retry.2.2.1 [false, true] 1 (by decide)).1,
    (link_write_retry.2.2.1 [false, true] 1 (by decide)).2⟩

/-! ## src/main.rs — `calc_edges`

`calc_edges` builds a grid `temp` holding `Some i` at every coordinate of
a buffer pixel (later pixels overwrite earlier entries), computes
`area.size_x`/`area.size_y` as the maxima of the pixel coordinates, and
assigns each grid-occupied pixel the edge list below. The grid is
modelled by the occupancy predicate `occupied`; under the Frame invariant
of spec §3 (no two pixels of one frame share a coordinate — true of every
decoded frame, whose coordinates are the distinct dense-grid points) the
grid write-back `buffer[*i].edges = …` assigns each pixel of the buffer
its own coordinate's edges, i.e. the per-pixel map `calc_edges` below. -/

/-- Occupancy of a coordinate in the `temp` grid of `calc_edges`:
some pixel of the buffer has coordinate `(x, y)`. -/
def occupied (buf : List Pixel) (x y : Nat) : Bool :=
  buf.any (fun q => q.x == x && q.y == y)

/-- `area.size_x` in `calc_edges`: starting from 0, raise to any larger
pixel x-coordinate. -/
def bufMaxX (buf : List Pixel) : Nat :=
  buf.foldl (fun a px => if px.x > a then px.x else a) 0

/-- `area.size_y` in `calc_edges`. -/
def bufMaxY (buf : List Pixel) : Nat :=
  buf.foldl (fun a px => if px.y > a then px.y else a) 0

/-- The edge list pushed for the pixel at `(x, y)` by `calc_edges`
(src/main.rs lines 112-131), in push order Top, Right, Bottom, Left. -/
def edgesFor (buf : List Pixel) (x y : Nat) : Edges :=
  Edges.new
    ((if (y == 0) || !occupied buf x (y - 1) then [Edge.Top] else []) ++
     ((if (x == bufMaxX buf) || !occupied buf (x + 1) y then [Edge.Right]
        else []) ++
      ((if (y == bufMaxY buf) || !occupied buf x (y + 1) then [Edge.Bottom]
         else []) ++
       (if (x == 0) || !occupied buf (x - 1) y then [Edge.Left] else []))))

/-- `calc_edges`: every pixel's edge flags become the flags computed from
the frame's occupancy grid at its coordinate. -/
def calc_edges (buf : List Pixel) : List Pixel :=
  buf.map (fun px => { px with edges := edgesFor buf px.x px.y })

lemma occupied_iff (buf : List Pixel) (x y : Nat) :
    occupied buf x y = true ↔ ∃ q ∈ buf, q.x = x ∧ q.y = y := by
  simp [occupied, List.any_eq_true]

lemma foldl_proj_le (f : Pixel → Nat) (l : List Pixel) :
    ∀ acc, acc ≤ l.foldl (fun a px => if f px > a then f px else a) acc := by
  induction l with
  | nil => intro acc; simp
  | cons p l ih =>
    intro acc
    refine le_trans ?_ (ih (if f p > acc then f p else acc))
    split <;> omega

lemma foldl_proj_mem (f : Pixel → Nat) (l : List Pixel) (q : Pixel)
    (hq : q ∈ l) :
    ∀ acc, f q ≤ l.foldl (fun a px => if f px > a then f px else a) acc := by
  induction l with
  | nil => cases hq
  | cons p l ih =>
    intro acc
    rcases List.mem_cons.mp hq with rfl | hmem
    · refine le_trans ?_ (foldl_proj_le f l (if f q > acc then f q else acc))
      split <;> omega
    · exact ih hmem _

lemma le_bufMaxX (buf : List Pixel) (q : Pixel) (hq : q ∈ buf) :
    q.x ≤ bufMaxX buf :=
  foldl_proj_mem (fun px => px.x) buf q hq 0

lemma le_bufMaxY (buf : List Pixel) (q : Pixel) (hq : q ∈ buf) :
    q.y ≤ bufMaxY buf :=
  foldl_proj_mem (fun px => px.y) buf q hq 0

lemma edges_new_hasEdge (c1 c2 c3 c4 : Bool) :
    ((Edges.new ((if c1 then [Edge.Top] else []) ++
        ((if c2 then [Edge.Right] else []) ++
         ((if c3 then [Edge.Bottom] else []) ++
          (if c4 then [Edge.Left] else []))))).hasEdge Edge.Top = c1 ∧
     (Edges.new ((if c1 then [Edge.Top] else []) ++
        ((if c2 then [Edge.Right] else []) ++
         ((if c3 then [Edge.Bottom] else []) ++
          (if c4 then [Edge.Left] else []))))).hasEdge Edge.Right = c2 ∧
     (Edges.new ((if c1 then [Edge.Top] else []) ++
        ((if c2 then [Edge.Right] else []) ++
         ((if c3 then [Edge.Bottom] else []) ++
          (if c4 then [Edge.Left] else []))))).hasEdge Edge.Bottom = c3 ∧
     (Edges.new ((if c1 then [Edge.Top] else []) ++
        ((if c2 then [Edge.Right] else []) ++
         ((if c3 then [Edge.Bottom] else []) ++
          (if c4 then [Edge.Left] else []))))).hasEdge Edge.Left = c4) := by
  revert c1 c2 c3 c4
  decide

lemma top_cond_iff (buf : List Pixel) (x y : Nat) :
    ((y == 0) || !occupied buf x (y - 1)) = true ↔
      ¬∃ q ∈ buf, q.x = x ∧ q.y + 1 = y := by
  constructor
  · intro h hex
    obtain ⟨q, hq, hqx, hqy⟩ := hex
    have hocc : occupied buf x (y - 1) = true :=
      (occupied_iff _ _ _).mpr ⟨q, hq, hqx, by omega⟩
    simp [hocc] at h
    omega
  · intro h
    cases hocc : occupied buf x (y - 1)
    · simp [hocc]
    · obtain ⟨q, hq, hqx, hqy⟩ := (occupied_iff _ _ _).mp hocc
      by_cases hy : y = 0
      · simp [hy]
      · exfalso
        exact h ⟨q, hq, hqx, by omega⟩

lemma left_cond_iff (buf : List Pixel) (x y : Nat) :
    ((x == 0) || !occupied buf (x - 1) y) = true ↔
      ¬∃ q ∈ buf, q.x + 1 = x ∧ q.y = y := by
  constructor
  · intro h hex
    obtain ⟨q, hq, hqx, hqy⟩ := hex
    have hocc : occupied buf (x - 1) y = true :=
      (occupied_iff _ _ _).mpr ⟨q, hq, by omega, hqy⟩
    simp [hocc] at h
    omega
  · intro h
    cases hocc : occupied buf (x - 1) y
    · simp [hocc]
    · obtain ⟨q, hq, hqx, hqy⟩ := (occupied_iff _ _ _).mp hocc
      by_cases hx : x = 0
      · simp [hx]
      · exfalso
        exact h ⟨q, hq, by omega, hqy⟩

lemma right_cond_iff (buf : List Pixel) (x y : Nat) :
    ((x == bufMaxX buf) || !occupied buf (x + 1) y) = true ↔
      ¬∃ q ∈ buf, q.x = x + 1 ∧ q.y = y := by
  constructor
  · intro h hex
    obtain ⟨q, hq, hqx, hqy⟩ := hex
    have hocc : occupied buf (x + 1) y = true :=
      (occupied_iff _ _ _).mpr ⟨q, hq, hqx, hqy⟩
    simp [hocc] at h
    have := le_bufMaxX buf q hq
    omega
  · intro h
    cases hocc : occupied buf (x + 1) y
    · simp [hocc]
    · exfalso
      obtain ⟨q, hq, hqx, hqy⟩ := (occupied_iff _ _ _).mp hocc
      exact h ⟨q, hq, hqx, hqy⟩

lemma bottom_cond_iff (buf : List Pixel) (x y : Nat) :
    ((y == bufMaxY buf) || !occupied buf x (y + 1)) = true ↔
      ¬∃ q ∈ buf, q.x = x ∧ q.y = y + 1 := by
  constructor
  · intro h hex
    obtain ⟨q, hq, hqx, hqy⟩ := hex
    have hocc : occupied buf x (y + 1) = true :=
      (occupied_iff _ _ _).mpr ⟨q, hq, hqx, hqy⟩
    simp [hocc] at h
    have := le_bufMaxY buf q hq
    omega
  · intro h
    cases hocc : occupied buf x (y + 1)
    · simp [hocc]
    · exfalso
      obtain ⟨q, hq, hqx, hqy⟩ := (occupied_iff _ _ _).mp hocc
      exact h ⟨q, hq, hqx, hqy⟩

/-- A 2×2 fully-opaque frame at offset (0,0), in decode order
(row-major: x = i mod width, y = i div width). -/
def frame22 : List Pixel :=
  [⟨0, 0, ⟨10, 20, 30, 255⟩, Edges.empty⟩,
   ⟨1, 0, ⟨10, 20, 30, 255⟩, Edges.empty⟩,
   ⟨0, 1, ⟨10, 20, 30, 255⟩, Edges.empty⟩,
   ⟨1, 1, ⟨10, 20, 30, 255⟩, Edges.empty⟩]

/-- The pixel `(0, 0)` of `frame22` after `calc_edges`: Top and Left set
(`1 ||| 8 = 9`), Right and Bottom clear. -/
def frame22px00 : Pixel := ⟨0, 0, ⟨10, 20, 30, 255⟩, Edges.new [.Top, .Left]⟩

/-- C3. Edge-flag computation: for every frame buffer satisfying the
no-duplicate-coordinate invariant and every pixel emitted by
`calc_edges`, Top is set iff no pixel of the frame sits at `(x, y-1)`
(vacuously so when `y` is the minimal row, in particular row 0), Right
iff none at `(x+1, y)` (vacuously when `x` is the maximal column), Bottom
iff none at `(x, y+1)` (vacuously when `y` is the maximal row), Left iff
none at `(x-1, y)` (vacuously when `x = 0`); and the 2×2 fully-opaque
frame at offset (0,0) yields 4 pixels, each flagged with exactly its two
outward edges — pixel `(0,0)` gets Top and Left (mask 9), `(1,0)` Top and
Right (3), `(0,1)` Bottom and Left (12), `(1,1)` Right and Bottom (6). -/
theorem calc_edges_spec (buf : List Pixel)
    (hnd : (buf.map fun q => (q.x, q.y)).Nodup)
    (px : Pixel) (hpx : px ∈ calc_edges buf) :
    ((px.edges.hasEdge Edge.Top = true ↔
        ¬∃ q ∈ buf, q.x = px.x ∧ q.y + 1 = px.y) ∧
     (px.edges.hasEdge Edge.Right = true ↔
        ¬∃ q ∈ buf, q.x = px.x + 1 ∧ q.y = px.y) ∧
     (px.edges.hasEdge Edge.Bottom = true ↔
        ¬∃ q ∈ buf, q.x = px.x ∧ q.y = px.y + 1) ∧
     (px.edges.hasEdge Edge.Left = true ↔
        ¬∃ q ∈ buf, q.x + 1 = px.x ∧ q.y = px.y)) ∧
    calc_edges frame22 =
      [⟨0, 0, ⟨10, 20, 30, 255⟩, ⟨9⟩⟩, ⟨1, 0, ⟨10, 20, 30, 255⟩, ⟨3⟩⟩,
       ⟨0, 1, ⟨10, 20, 30, 255⟩, ⟨12⟩⟩, ⟨1, 1, ⟨10, 20, 30, 255⟩, ⟨6⟩⟩] := by
  refine ⟨?_, by decide⟩
  obtain ⟨orig, horig, rfl⟩ := List.mem_map.mp hpx
  have hE := edges_new_hasEdge
    ((orig.y == 0) || !occupied buf orig.x (orig.y - 1))
    ((orig.x == bufMaxX buf) || !occupied buf (orig.x + 1) orig.y)
    ((orig.y == bufMaxY buf) || !occupied buf orig.x (orig.y + 1))
    ((orig.x == 0) || !occupied buf (orig.x - 1) orig.y)
  refine ⟨?_, ?_, ?_, ?_⟩
  · rw [show ({ orig with edges := edgesFor buf orig.x orig.y } : Pixel).edges
        = edgesFor buf orig.x orig.y from rfl, edgesFor, hE.1]
    exact top_cond_iff buf orig.x orig.y
  · rw [show ({ orig with edges := edgesFor buf orig.x orig.y } : Pixel).edges
        = edgesFor buf orig.x orig.y from rfl, edgesFor, hE.2.1]
    exact right_cond_iff buf orig.x orig.y
  · rw [show ({ orig with edges := edgesFor buf orig.x orig.y } : Pixel).edges
        = edgesFor buf orig.x orig.y from rfl, edgesFor, hE.2.2.1]
    exact bottom_cond_iff buf orig.x orig.y
  · rw [show ({ orig with edges := edgesFor buf orig.x orig.y } : Pixel).edges
        = edgesFor buf orig.x orig.y from rfl, edgesFor, hE.2.2.2]
    exact left_cond_iff buf orig.x orig.y

/-- Witness for C3 at the 2×2 frame and its pixel `(0, 0)`. -/
theorem calc_edges_spec_witness :
    ((frame22.map fun q => (q.x, q.y)).Nodup ∧
      frame22px00 ∈ calc_edges frame22) ∧
    (frame22px00.edges.hasEdge Edge.Top = true ↔
      ¬∃ q ∈ frame22, q.x = frame22px00.x ∧ q.y + 1 = frame22px00.y) ∧
    (frame22px00.edges.hasEdge Edge.Right = true ↔
      ¬∃ q ∈ frame22, q.x = frame22px00.x + 1 ∧ q.y = frame22px00.y) := by
  have h := calc_edges_spec frame22 (by decide) frame22px00 (by decide)
  exact ⟨⟨by decide, by decide⟩, h.1.1, h.1.2.1⟩

/-! ## src/filter/blend.rs and src/filter/rainbow.rs

Both filters only reassign `px.value` for each buffer pixel and never
touch the `restore` argument. The alpha-compositing `Rgba::blend` of the
external `image` crate and the floating-point HSL→RGB conversion of the
external `hsl` crate are collaborator interfaces (spec §1, §6) and are
passed in as function arguments. -/

/-- `Blend::transform_buffer` (src/filter/blend.rs lines 15-25). -/
def Blend.transformBuffer (blend : Rgba → Rgba → Rgba) (color : Rgba)
    (buffer : List Pixel) (restore : Option (List Pixel)) :
    List Pixel × Option (List Pixel) :=
  (buffer.map fun px => { px with value := blend px.value color }, restore)

/-- The state of `Rainbow`: configured alpha and speed, invocation
counter `frame`. -/
structure RainbowState where
  alpha : Nat
  speed : Nat
  frame : Nat
deriving DecidableEq, Repr

/-- `Rainbow::transform_buffer` (src/filter/rainbow.rs lines 21-42):
`hue = (frame * speed) % 360`, the mask is the HSL→RGB conversion of
`(hue, 1.0, 0.5)`, every pixel is blended with the mask at the
configured alpha, and the frame counter advances by one. -/
def Rainbow.transformBuffer (blend : Rgba → Rgba → Rgba)
    (hslToRgb : Nat → Nat × Nat × Nat) (st : RainbowState)
    (buffer : List Pixel) (restore : Option (List Pixel)) :
    RainbowState × List Pixel × Option (List Pixel) :=
  let hue := st.frame * st.speed % 360
  let mask := hslToRgb hue
  ({ st with frame := st.frame + 1 },
   buffer.map fun px =>
     { px with value := blend px.value ⟨mask.1, mask.2.1, mask.2.2, st.alpha⟩ },
   restore)

/-- C7. Blend/Rainbow frame condition: for every buffer and restore pair
and any color math, Blend and Rainbow leave every pixel's coordinates and
edge flags unchanged, leave the buffer length unchanged, and return the
restore buffer (absent or present) exactly as passed in — only pixel
colors may change. -/
theorem blend_rainbow_color_only (blend : Rgba → Rgba → Rgba)
    (hslToRgb : Nat → Nat × Nat × Nat) (color : Rgba) (st : RainbowState)
    (buffer : List Pixel) (restore : Option (List Pixel)) :
    ((Blend.transformBuffer blend color buffer restore).1.map
        (fun px => (px.x, px.y, px.edges)) =
      buffer.map (fun px => (px.x, px.y, px.edges))) ∧
    (Blend.transformBuffer blend color buffer restore).1.length =
      buffer.length ∧
    (Blend.transformBuffer blend color buffer restore).2 = restore ∧
    ((Rainbow.transformBuffer blend hslToRgb st buffer restore).2.1.map
        (fun px => (px.x, px.y, px.edges)) =
      buffer.map (fun px => (px.x, px.y, px.edges))) ∧
    (Rainbow.transformBuffer blend hslToRgb st buffer restore).2.1.length =
      buffer.length ∧
    (Rainbow.transformBuffer blend hslToRgb st buffer restore).2.2 =
      restore := by
  refine ⟨?_, ?_, rfl, ?_, ?_, rfl⟩ <;>
    simp [Blend.transformBuffer, Rainbow.transformBuffer]

/-! ## src/main.rs — restore diff preprocessing (lines 269-295)

After decoding, `frames` is a list of (pixel buffer, restore buffer)
pairs, each restore buffer still empty, and each frame's `frame_lookup`
holds exactly the coordinates of its emitted pixels (every emitted pixel
is inserted), so lookup membership is the `occupied` predicate. When
restore mode is on, the pass iterates `i in 0..num_frames`: for
`i < num_frames - 1` it diffs frame `i` against frame `i+1`; for
`i = num_frames - 1` it takes `split_at_mut(1)` and indexes the second
half at `len - 1`, i.e. frame `num_frames - 1` diffed against frame `0` —
but with a single frame the second half is empty and `len - 1` underflows
`usize`, an index-out-of-bounds panic, modelled as `none`. -/

/-- `RESTORE_DEBUG_COLOR` (src/main.rs line 31). -/
def RESTORE_DEBUG_COLOR : Rgba := ⟨0, 0, 0, 255⟩

/-- The erase markers pushed onto `frame.2` when diffing buffer `buf`
against the next frame's lookup: for every pixel with nonzero alpha
whose coordinate is absent from the next frame's lookup, one Pixel with
the canvas-clear color and default (empty) edges at that coordinate. -/
def restoreDiffFor (buf next : List Pixel) : List Pixel :=
  buf.filterMap fun px =>
    if px.value.a == 0 || occupied next px.x px.y then none
    else some ⟨px.x, px.y, RESTORE_DEBUG_COLOR, Edges.empty⟩

/-- The restore-diff pass over the whole preprocessed frame list. -/
def restorePass (frames : List (List Pixel × List Pixel)) :
    Option (List (List Pixel × List Pixel)) :=
  if frames.length = 1 then none
  else some <| frames.mapIdx fun i f =>
    (f.1, f.2 ++ restoreDiffFor f.1
      (frames.getD ((i + 1) % frames.length) ([], [])).1)

lemma mem_restoreDiffFor (buf next : List Pixel) (m : Pixel) :
    m ∈ restoreDiffFor buf next ↔ ∃ q ∈ buf,
      ¬(q.value.a == 0 || occupied next q.x q.y) = true ∧
      m = ⟨q.x, q.y, RESTORE_DEBUG_COLOR, Edges.empty⟩ := by
  simp only [restoreDiffFor, List.mem_filterMap]
  constructor
  · rintro ⟨q, hq, hfm⟩
    by_cases hc : (q.value.a == 0 || occupied next q.x q.y) = true
    · rw [if_pos hc] at hfm
      cases hfm
    · rw [if_neg hc] at hfm
      exact ⟨q, hq, hc, (Option.some.inj hfm).symm⟩
  · rintro ⟨q, hq, hc, rfl⟩
    refine ⟨q, hq, ?_⟩
    rw [if_neg hc]

lemma countP_restoreDiff (buf next : List Pixel) (x y : Nat) :
    (restoreDiffFor buf next).countP (fun m => m.x == x && m.y == y) =
      buf.countP (fun q => q.x == x && q.y == y &&
        !(q.value.a == 0 || occupied next q.x q.y)) := by
  induction buf with
  | nil => rfl
  | cons q rest ih =>
    rw [restoreDiffFor, List.filterMap_cons]
    by_cases hc : (q.value.a == 0 || occupied next q.x q.y) = true
    · rw [if_pos hc]
      rw [restoreDiffFor] at ih
      rw [ih, List.countP_cons]
      simp [hc]
    · rw [if_neg hc, List.countP_cons]
      rw [restoreDiffFor] at ih
      rw [ih, List.countP_cons]
      simp only [Bool.not_eq_true] at hc
      simp [hc]

lemma countP_singleton_of_coord_nodup (buf : List Pixel)
    (hnd : (buf.map fun q => (q.x, q.y)).Nodup)
    (px : Pixel) (hpx : px ∈ buf) (p : Pixel → Bool)
    (hppx : p px = true)
    (himp : ∀ q, p q = true → q.x = px.x ∧ q.y = px.y) :
    buf.countP p = 1 := by
  induction buf with
  | nil => cases hpx
  | cons a rest ih =>
    rw [List.map_cons, List.nodup_cons] at hnd
    have hnd' : (rest.map fun q => (q.x, q.y)).Nodup := hnd.2
    have hhead : (a.x, a.y) ∉ rest.map fun q => (q.x, q.y) := hnd.1
    rcases List.mem_cons.mp hpx with rfl | hmem
    · have hrest : rest.countP p = 0 := by
        rw [List.countP_eq_zero]
        intro q hq hpq
        obtain ⟨hqx, hqy⟩ := himp q hpq
        exact hhead (List.mem_map.mpr ⟨q, hq, by rw [hqx, hqy]⟩)
      simp [List.countP_cons, hppx, hrest]
    · have hpa : p a = false := by
        by_contra hcontra
        rw [Bool.not_eq_false] at hcontra
        obtain ⟨hax, hay⟩ := himp a hcontra
        exact hhead (List.mem_map.mpr ⟨px, hmem, by rw [hax, hay]⟩)
      simp [List.countP_cons, hpa, ih hnd' hmem]

/-- C9. Single-frame restore diff: with restore mode on and exactly one
decoded frame, the pass hits the wrap-around branch, whose
`split_at_mut(1)` leaves an empty second half that is indexed at
`len - 1` with `len = 0` — an index-out-of-bounds panic, modelled as
`none` — even though the intended diff of the frame against itself is
empty (every opaque coordinate of the frame is present in its own
lookup). -/
theorem restorePass_single_frame_panics (f : List Pixel × List Pixel) :
    restorePass [f] = none ∧ restoreDiffFor f.1 f.1 = [] := by
  refine ⟨rfl, ?_⟩
  rw [List.eq_nil_iff_forall_not_mem]
  intro m hm
  obtain ⟨q, hq, hc, rfl⟩ := (mem_restoreDiffFor _ _ _).mp hm
  have : occupied f.1 q.x q.y = true :=
    (occupied_iff _ _ _).mpr ⟨q, hq, rfl, rfl⟩
  simp [this] at hc

/-- C2. Restore diff: whenever the pass completes, frame `i`'s restore
buffer receives exactly the diff of its buffer against frame
`(i+1) mod num_frames`'s lookup (the sequence wraps, so the last frame is
diffed against the first); in such a diff, a coordinate carried by an
opaque pixel of the frame (unique under the frame invariant) that is
absent from the next frame's lookup yields exactly one erase marker at
that coordinate, a coordinate present in the next frame's lookup yields
none, and every marker carries the canvas-clear color and empty edge
flags. -/
theorem restore_diff_spec :
    (∀ frames out, restorePass frames = some out →
      out.length = frames.length ∧
      ∀ i, i < frames.length →
        out.getD i ([], []) = ((frames.getD i ([], [])).1,
          (frames.getD i ([], [])).2 ++
            restoreDiffFor (frames.getD i ([], [])).1
              (frames.getD ((i + 1) % frames.length) ([], [])).1)) ∧
    (∀ buf next (px : Pixel), px ∈ buf → px.value.a ≠ 0 →
      occupied next px.x px.y = false →
      (buf.map fun q => (q.x, q.y)).Nodup →
      (restoreDiffFor buf next).countP
        (fun m => m.x == px.x && m.y == px.y) = 1) ∧
    (∀ buf next (x y : Nat), occupied next x y = true →
      (restoreDiffFor buf next).countP (fun m => m.x == x && m.y == y) = 0) ∧
    (∀ buf next (m : Pixel), m ∈ restoreDiffFor buf next →
      m.value = RESTORE_DEBUG_COLOR ∧ m.edges = Edges.empty) := by
  refine ⟨?_, ?_, ?_, ?_⟩
  · intro frames out h
    unfold restorePass at h
    by_cases hlen : frames.length = 1
    · rw [if_pos hlen] at h
      cases h
    · rw [if_neg hlen] at h
      obtain rfl := (Option.some.inj h).symm
      refine ⟨by simp, ?_⟩
      intro i hi
      rw [List.getD_eq_getElem?_getD, List.getElem?_mapIdx,
        List.getElem?_eq_getElem hi]
      have hgd : frames.getD i ([], []) = frames[i] :=
        List.getD_eq_getElem frames ([], []) hi
      rw [hgd]
      rfl
  · intro buf next px hpx halpha hocc hnd
    rw [countP_restoreDiff]
    apply countP_singleton_of_coord_nodup buf hnd px hpx
    · simp [halpha, hocc]
    · intro q hq
      simp only [Bool.and_eq_true, beq_iff_eq] at hq
      exact ⟨hq.1.1, hq.1.2⟩
  · intro buf next x y hocc
    rw [countP_restoreDiff, List.countP_eq_zero]
    intro q hq hpred
    simp only [Bool.and_eq_true, beq_iff_eq, Bool.not_eq_true',
      Bool.or_eq_false_iff] at hpred
    obtain ⟨⟨hqx, hqy⟩, _, hqocc⟩ := hpred
    rw [hqx, hqy] at hqocc
    rw [hocc] at hqocc
    cases hqocc
  · intro buf next m hm
    obtain ⟨q, hq, hc, rfl⟩ := (mem_restoreDiffFor _ _ _).mp hm
    exact ⟨rfl, rfl⟩

/-- First frame of the concrete two-frame restore example: one opaque
pixel at `(0, 0)`. -/
def pxA : Pixel := ⟨0, 0, ⟨1, 2, 3, 255⟩, Edges.empty⟩

/-- Second frame of the concrete two-frame restore example: one opaque
pixel at `(1, 0)`. -/
def pxB : Pixel := ⟨1, 0, ⟨4, 5, 6, 255⟩, Edges.empty⟩

/-- The two-frame sequence for the C2 witness, restore buffers empty. -/
def framesAB : List (List Pixel × List Pixel) := [([pxA], []), ([pxB], [])]

/-- The result of the restore pass on `framesAB`: each frame erases the
coordinate vacated by the other. -/
def framesABOut : List (List Pixel × List Pixel) :=
  [([pxA], [⟨0, 0, RESTORE_DEBUG_COLOR, Edges.empty⟩]),
   ([pxB], [⟨1, 0, RESTORE_DEBUG_COLOR, Edges.empty⟩])]

/-- Witness for C2 at the concrete two-frame sequence. -/
theorem restore_diff_spec_witness :
    restorePass framesAB = some framesABOut ∧
    framesABOut.getD 0 ([], []) = ((framesAB.getD 0 ([], [])).1,
      (framesAB.getD 0 ([], [])).2 ++
        restoreDiffFor (framesAB.getD 0 ([], [])).1
          (framesAB.getD ((0 + 1) % framesAB.length) ([], [])).1) ∧
    (restoreDiffFor [pxA] [pxB]).countP
      (fun m => m.x == pxA.x && m.y == pxA.y) = 1 ∧
    (restoreDiffFor [pxA] [pxA]).countP (fun m => m.x == 0 && m.y == 0) = 0 := by
  have h := restore_diff_spec
  refine ⟨by decide, ?_, ?_, ?_⟩
  · exact (h.1 framesAB framesABOut (by decide)).2 0 (by decide)
  · exact h.2.1 [pxA] [pxB] pxA (by decide) (by decide) (by decide) (by decide)
  · exact h.2.2.1 [pxA] [pxA] 0 0 (by decide)

/-! ## src/conn.rs — Dispatch Engine background loop (lines 102-125)

`ConnectionBundle::new` spawns a loop over state (current buffer, held
restore, pending update queue). Each iteration: if the queue is
non-empty — or no buffer has ever been set — it consumes exactly one
pending `Job::UpdateBuffer`; on consumption, a previously held restore
buffer (if any) is drawn once, then the update's restore replaces the
held one and the update's buffer becomes current. Every iteration ends by
drawing the current buffer once (`draw(&mut connections, &buffer, …)`).
Updates are modelled as pre-queued in submission order; a blocked
`recv().await` on an empty queue with an empty buffer produces no events. -/

/-- One submitted `Job::UpdateBuffer` pair. -/
structure Update where
  buffer : List Pixel
  restore : Option (List Pixel)
deriving DecidableEq, Repr

/-- State of the background loop. -/
structure DispatchState where
  buffer : List Pixel
  restore : Option (List Pixel)
  pending : List Update
deriving DecidableEq, Repr

/-- One full broadcast cycle (`draw`) of a buffer to all links. -/
inductive DrawEvent where
  | draw : List Pixel → DrawEvent
deriving DecidableEq, Repr

/-- One iteration of the background loop, returning the next state and
the broadcast cycles it performs, in order. -/
def loopIter (s : DispatchState) : DispatchState × List DrawEvent :=
  if s.pending.length ≠ 0 ∨ s.buffer.length = 0 then
    match s.pending with
    | [] => (s, [])
    | u :: rest =>
      (⟨u.buffer, u.restore, rest⟩,
        (match s.restore with
          | some r => [DrawEvent.draw r]
          | none => []) ++ [DrawEvent.draw u.buffer])
  else (s, [DrawEvent.draw s.buffer])

/-- The loop state after `k` iterations. -/
def loopState (s : DispatchState) : Nat → DispatchState
  | 0 => s
  | k + 1 => (loopIter (loopState s k)).1

lemma loopState_consumes (b0 : List Pixel) (r0 : Option (List Pixel))
    (us : List Update) (k : Nat) (hk : k ≤ us.length) (hk0 : 0 < k) :
    loopState ⟨b0, r0, us⟩ k =
      ⟨(us.getD (k - 1) ⟨[], none⟩).buffer,
       (us.getD (k - 1) ⟨[], none⟩).restore, us.drop k⟩ := by
  induction k with
  | zero => omega
  | succ k ih =>
    rcases Nat.eq_zero_or_pos k with rfl | hkpos
    · obtain ⟨u, rest, rfl⟩ : ∃ u rest, us = u :: rest := by
        cases us with
        | nil => simp at hk
        | cons u rest => exact ⟨u, rest, rfl⟩
      show (loopIter ⟨b0, r0, u :: rest⟩).1 = _
      rw [loopIter]
      simp
    · have hlt : k < us.length := by omega
      have ih' := ih (by omega) hkpos
      show (loopIter (loopState ⟨b0, r0, us⟩ k)).1 = _
      rw [ih']
      have hdrop : us.drop k = us[k] :: us.drop (k + 1) :=
        List.drop_eq_getElem_cons hlt
      have hgd : us.getD k ⟨[], none⟩ = us[k] :=
        List.getD_eq_getElem us ⟨[], none⟩ hlt
      rw [loopIter]
      simp only [hdrop, List.length_cons]
      rw [if_pos (Or.inl (Nat.succ_ne_zero _))]
      simp [hgd, List.getElem?_eq_getElem hlt]

/-- C5. Dispatch update/restore handoff: viewing the background loop as a
step relation over (current buffer, held restore, pending updates), at
the iteration consuming the `k`-th submitted update (`k ≥ 1`), the
broadcast cycles of that iteration are exactly one draw of the restore
buffer submitted with update `k-1` (none if that update carried no
restore) followed by one draw of update `k`'s buffer — so the previous
update's restore is drawn exactly once before update `k`'s buffer becomes
current, and update `k`'s own restore buffer is not drawn at that
transition but is retained as the held restore for the next one. -/
theorem dispatch_update_restore_handoff (b0 : List Pixel)
    (r0 : Option (List Pixel)) (us : List Update) (k : Nat)
    (hk0 : 0 < k) (hk : k < us.length) :
    (loopIter (loopState ⟨b0, r0, us⟩ k)).2 =
      (match (us.getD (k - 1) ⟨[], none⟩).restore with
        | some r => [DrawEvent.draw r]
        | none => []) ++
        [DrawEvent.draw (us.getD k ⟨[], none⟩).buffer] ∧
    (loopIter (loopState ⟨b0, r0, us⟩ k)).1.restore =
      (us.getD k ⟨[], none⟩).restore ∧
    (loopIter (loopState ⟨b0, r0, us⟩ k)).1.buffer =
      (us.getD k ⟨[], none⟩).buffer := by
  rw [loopState_consumes b0 r0 us k (Nat.le_of_lt hk) hk0]
  have hdrop : us.drop k = us[k] :: us.drop (k + 1) :=
    List.drop_eq_getElem_cons hk
  have hgd : us.getD k ⟨[], none⟩ = us[k] :=
    List.getD_eq_getElem us ⟨[], none⟩ hk
  rw [loopIter]
  simp only [hdrop, List.length_cons]
  rw [if_pos (Or.inl (Nat.succ_ne_zero _))]
  simp [hgd, List.getElem?_eq_getElem hk]

/-- The update sequence for the C5 witness. -/
def usAB : List Update := [⟨[pxA], some [pxB]⟩, ⟨[pxB], some [pxA]⟩]

/-- Witness for C5 at `k = 1` over `usAB`: consuming the second update
draws the first update's restore `[pxB]` once, then draws the second
update's buffer; the second update's restore is retained, not drawn. -/
theorem dispatch_update_restore_handoff_witness :
    (loopIter (loopState ⟨[], none, usAB⟩ 1)).2 =
      (match (usAB.getD 0 ⟨[], none⟩).restore with
        | some r => [DrawEvent.draw r]
        | none => []) ++
        [DrawEvent.draw (usAB.getD 1 ⟨[], none⟩).buffer] ∧
    (loopIter (loopState ⟨[], none, usAB⟩ 1)).1.restore =
      (usAB.getD 1 ⟨[], none⟩).restore ∧
    (loopIter (loopState ⟨[], none, usAB⟩ 1)).1.buffer =
      (usAB.getD 1 ⟨[], none⟩).buffer :=
  dispatch_update_restore_handoff [] none usAB 1 (by decide) (by decide)

/-! ## src/main.rs — `fetch_canvas_size` (lines 54-85)

The reply stream is the list of bytes the server sends after `SIZE\n`.
The read loop takes one byte at a time: end of stream before a newline is
the early-EOF error, a non-ASCII byte (`≥ 128`) is an error, `\n` (10)
ends the line, anything else is collected. The collected line is split on
single space bytes (Rust `split(' ')`, which keeps empty substrings
between consecutive spaces), the first part is skipped, exactly two parts
must remain, and both must parse as `u32`. -/

/-- The error cases of `fetch_canvas_size`. -/
inductive SizeError where
  | earlyEof
  | nonAscii
  | invalidAnswer
  | parseFailure
deriving DecidableEq, Repr

/-- The byte-reading loop of `fetch_canvas_size` (lines 59-74). -/
def readAnswer : List Nat → Except SizeError (List Nat)
  | [] => .error .earlyEof
  | b :: rest =>
    if b ≥ 128 then .error .nonAscii
    else if b = 10 then .ok []
    else (readAnswer rest).map (b :: ·)

/-- Digit accumulation of `str::parse::<u32>`: all bytes must be ASCII
digits. -/
def parseDigitsAux : List Nat → Nat → Option Nat
  | [], acc => some acc
  | c :: rest, acc =>
    if 48 ≤ c ∧ c ≤ 57 then parseDigitsAux rest (acc * 10 + (c - 48))
    else none

/-- `str::parse::<u32>` on a token: an optional leading `+`, then at
least one ASCII digit, and the value must fit in a `u32` (otherwise the
parse reports overflow). -/
def parseU32 (s : List Nat) : Option Nat :=
  let digits := match s with
    | 43 :: rest => rest
    | _ => s
  match digits with
  | [] => none
  | _ :: _ =>
    match parseDigitsAux digits 0 with
    | some v => if v < 2 ^ 32 then some v else none
    | none => none

/-- `fetch_canvas_size` over a reply byte stream. -/
def fetch_canvas_size (input : List Nat) : Except SizeError (Nat × Nat) :=
  match readAnswer input with
  | .error e => .error e
  | .ok answer =>
    let parts := (answer.splitOn 32).drop 1
    if parts.length = 2 then
      match parseU32 (parts.getD 0 []), parseU32 (parts.getD 1 []) with
      | some x, some y => .ok (x, y)
      | _, _ => .error .parseFailure
    else .error .invalidAnswer

/-- `true` iff a size-query result is an error. -/
def isSizeErr {α : Type} : Except SizeError α → Bool
  | .error _ => true
  | .ok _ => false

/-- Modelled from the spec (wording of claim C6): the whitespace-separated
tokens of a line — maximal runs of non-whitespace bytes, ASCII whitespace
(space, tab, CR, VT, FF) separating, empty tokens discarded. -/
def whitespaceTokens (line : List Nat) : List (List Nat) :=
  (line.splitOnP fun b =>
      b == 32 || b == 9 || b == 13 || b == 11 || b == 12).filter
    fun t => !t.isEmpty

/-- Modelled from the spec (wording of claim C6): the size parsed per the
claim — discard the first whitespace-separated token of the reply line,
require exactly two remaining tokens, parse both as unsigned integers;
`none` on end-of-stream before a newline, a non-ASCII byte, a wrong token
count, or a parse failure. -/
def specSizeResult (input : List Nat) : Option (Nat × Nat) :=
  match readAnswer input with
  | .error _ => none
  | .ok answer =>
    let toks := (whitespaceTokens answer).drop 1
    if toks.length = 2 then
      match parseU32 (toks.getD 0 []), parseU32 (toks.getD 1 []) with
      | some x, some y => some (x, y)
      | _, _ => none
    else none

/-- Claim C6 as stated, for one reply stream: the query fails exactly
when the claim's whitespace-tokenization conditions fail, and on success
it returns the two parsed tokens. -/
def sizeClaimAsStated (input : List Nat) : Prop :=
  (fetch_canvas_size input).toOption = specSizeResult input

/-- The reply `SIZE 800 600\n` as bytes. -/
def sizeReplyGood : List Nat := [83, 73, 90, 69, 32, 56, 48, 48, 32, 54, 48, 48, 10]

/-- The reply `SIZE<space><space>800 600\n` (two consecutive spaces)
as bytes. -/
def sizeReplyDoubleSpace : List Nat :=
  [83, 73, 90, 69, 32, 32, 56, 48, 48, 32, 54, 48, 48, 10]

/-- The reply `BADX\n` as bytes. -/
def sizeReplyBad : List Nat := [66, 65, 68, 88, 10]

/-- The reply `SIZE 800 600` with the stream closed before any newline. -/
def sizeReplyEarlyClose : List Nat := [83, 73, 90, 69, 32, 56, 48, 48]

/-- Counterexample to C6 as stated: on the single-line all-ASCII reply
`SIZE  800 600\n` (two consecutive spaces) there are exactly two
whitespace-separated tokens after the first and both parse as unsigned
integers, so the claim says the query succeeds with (800, 600) — but the
code splits on single spaces, keeping an empty token between the
consecutive spaces, finds three parts after the first, and fails. -/
theorem fetch_canvas_size_claim_counterexample :
    ¬ sizeClaimAsStated sizeReplyDoubleSpace ∧
    fetch_canvas_size sizeReplyDoubleSpace =
      Except.error SizeError.invalidAnswer ∧
    specSizeResult sizeReplyDoubleSpace = some (800, 600) := by
  refine ⟨?_, rfl, by decide⟩
  unfold sizeClaimAsStated
  decide

lemma readAnswer_ok_iff (input : List Nat) (answer : List Nat) :
    readAnswer input = Except.ok answer ↔
      ∃ n, n < input.length ∧ input.getD n 0 = 10 ∧
        (∀ m, m < n → input.getD m 0 ≠ 10 ∧ input.getD m 0 < 128) ∧
        answer = input.take n := by
  induction input generalizing answer with
  | nil => simp [readAnswer]
  | cons b rest ih =>
    by_cases hb : b ≥ 128
    · rw [readAnswer, if_pos hb]
      constructor
      · intro h
        exact Except.noConfusion h
      · rintro ⟨n, hn, h10, hall, rfl⟩
        exfalso
        cases n with
        | zero =>
          rw [List.getD_cons_zero] at h10
          omega
        | succ n' =>
          have := (hall 0 (by omega)).2
          rw [List.getD_cons_zero] at this
          omega
    · push_neg at hb
      by_cases h10 : b = 10
      · subst h10
        rw [readAnswer, if_neg (by omega), if_pos rfl]
        constructor
        · intro h
          obtain rfl : ([] : List Nat) = answer := Except.ok.inj h
          exact ⟨0, by simp, by simp, fun m hm => absurd hm (by omega),
            by simp⟩
        · rintro ⟨n, hn, hg10, hall, rfl⟩
          cases n with
          | zero => simp
          | succ n' =>
            exfalso
            have := (hall 0 (by omega)).1
            rw [List.getD_cons_zero] at this
            exact this rfl
      · rw [readAnswer, if_neg (by omega), if_neg h10]
        constructor
        · intro h
          rcases hrest : readAnswer rest with e | ans'
          · rw [hrest] at h
            exact Except.noConfusion h
          · rw [hrest] at h
            obtain rfl : b :: ans' = answer := Except.ok.inj h
            obtain ⟨n', hn', h10', hall', hans'⟩ := (ih ans').mp hrest
            refine ⟨n' + 1, by simp; omega, by simpa using h10', ?_, ?_⟩
            · intro m hm
              cases m with
              | zero =>
                rw [List.getD_cons_zero]
                exact ⟨h10, hb⟩
              | succ m' =>
                rw [List.getD_cons_succ]
                exact hall' m' (by omega)
            · rw [hans', List.take_succ_cons]
        · rintro ⟨n, hn, hg10, hall, rfl⟩
          cases n with
          | zero =>
            exfalso
            rw [List.getD_cons_zero] at hg10
            exact h10 hg10
          | succ n' =>
            have hrest' : readAnswer rest = Except.ok (rest.take n') :=
              (ih (rest.take n')).mpr ⟨n', by simpa using hn,
                by simpa using hg10,
                fun m hm => by simpa using hall (m + 1) (by omega), rfl⟩
            rw [hrest', List.take_succ_cons]
            rfl

/-- The line read from `sizeReplyGood` (the bytes before the newline). -/
def sizeAnswerGood : List Nat := [83, 73, 90, 69, 32, 56, 48, 48, 32, 54, 48, 48]

/-- C6 (amended). SIZE handshake with the code's tokenization: the reply
line (bytes up to the first newline, all of which must be ASCII) is split
on single space bytes — Rust's `split(' ')`, so consecutive spaces
produce empty tokens — the first part is discarded, and the remaining two
are parsed as (width, height); `SIZE 800 600\n` yields (800, 600), and
the query fails iff the stream ends before a newline, a non-ASCII byte is
read before it, other than exactly two parts remain after the first
(e.g. `BADX\n`), or a remaining part fails to parse as a `u32`. -/
theorem fetch_canvas_size_spec :
    fetch_canvas_size sizeReplyGood = Except.ok (800, 600) ∧
    fetch_canvas_size sizeReplyBad = Except.error SizeError.invalidAnswer ∧
    fetch_canvas_size sizeReplyEarlyClose = Except.error SizeError.earlyEof ∧
    (∀ input e, readAnswer input = Except.error e →
      fetch_canvas_size input = Except.error e) ∧
    (∀ input answer, readAnswer input = Except.ok answer →
      isSizeErr (fetch_canvas_size input) =
        (!(((answer.splitOn 32).drop 1).length == 2) ||
         (parseU32 (((answer.splitOn 32).drop 1).getD 0 [])).isNone ||
         (parseU32 (((answer.splitOn 32).drop 1).getD 1 [])).isNone)) ∧
    (∀ input answer x y, readAnswer input = Except.ok answer →
      ((answer.splitOn 32).drop 1).length = 2 →
      parseU32 (((answer.splitOn 32).drop 1).getD 0 []) = some x →
      parseU32 (((answer.splitOn 32).drop 1).getD 1 []) = some y →
      fetch_canvas_size input = Except.ok (x, y)) ∧
    (∀ input answer, readAnswer input = Except.ok answer ↔
      ∃ n, n < input.length ∧ input.getD n 0 = 10 ∧
        (∀ m, m < n → input.getD m 0 ≠ 10 ∧ input.getD m 0 < 128) ∧
        answer = input.take n) := by
  refine ⟨rfl, rfl, rfl, ?_, ?_, ?_, readAnswer_ok_iff⟩
  · intro input e h
    unfold fetch_canvas_size
    rw [h]
  · intro input answer h
    unfold fetch_canvas_size
    rw [h]
    dsimp only
    by_cases hlen : ((answer.splitOn 32).drop 1).length = 2
    · rw [if_pos hlen]
      have h3 : (List.splitOn 32 answer).length = 3 := by
        rw [List.length_drop] at hlen
        omega
      rcases h0 : parseU32 (((answer.splitOn 32).drop 1).getD 0 []) with _ | x <;>
        rcases h1 : parseU32 (((answer.splitOn 32).drop 1).getD 1 []) with _ | y <;>
        simp [isSizeErr, hlen, h0, h1, h3]
    · rw [if_neg hlen]
      have h3 : ¬(List.splitOn 32 answer).length = 3 := by
        rw [List.length_drop] at hlen
        omega
      simp [isSizeErr, hlen]
      exact Or.inl (Or.inl h3)
  · intro input answer x y h hlen h0 h1
    unfold fetch_canvas_size
    rw [h]
    dsimp only
    rw [if_pos hlen, h0, h1]

/-- Witness for C6 (amended) at the concrete good and truncated replies. -/
theorem fetch_canvas_size_spec_witness :
    fetch_canvas_size sizeReplyEarlyClose = Except.error SizeError.earlyEof ∧
    fetch_canvas_size sizeReplyGood = Except.ok (800, 600) :=
  ⟨fetch_canvas_size_spec.2.2.2.1 sizeReplyEarlyClose SizeError.earlyEof rfl,
   fetch_canvas_size_spec.2.2.2.2.2.1 sizeReplyGood sizeAnswerGood 800 600
     rfl (by decide) (by decide) (by decide)⟩

/-! ## src/filter/bounce.rs — the Bounce filter

`Bounce` keeps a 2D offset (`base_x`, `base_y` : `i32`), a velocity
(`vec_x`, `vec_y` : `i8`), the canvas size, the sprite's placement `Area`
and a speed bias. `i32`/`i8` arithmetic is modelled over `Int` (the
values reachable from valid configurations stay far from the machine
bounds); `as u32` casts, which wrap in the release profile, are modelled
with an explicit `% 2 ^ 32`. The `random_range(VEC_RANGE)` draws of the
external `rand` crate are passed in as inputs. -/

/-- `Area` from src/main.rs: placement origin and extents. -/
structure Area where
  origin_x : Nat
  origin_y : Nat
  size_x : Nat
  size_y : Nat
deriving DecidableEq, Repr

/-- The state of `Bounce`. -/
structure BounceState where
  base_x : Int
  base_y : Int
  vec_x : Int
  vec_y : Int
  screen_x : Nat
  screen_y : Nat
  area : Area
  speed : Int
deriving DecidableEq, Repr

/-- `v as u32` on an `i32` value: two's-complement wrap into
`[0, 2 ^ 32)`. -/
def wrapU32 (v : Int) : Nat := (v % (2 ^ 32 : Int)).toNat

/-- Wrapping `u32` subtraction `a - b` (release profile). -/
def u32Sub (a b : Nat) : Nat := wrapU32 ((a : Int) - (b : Int))

/-- Wrapping `u32` addition `a + b` (release profile). -/
def u32Add (a b : Nat) : Nat := wrapU32 ((a : Int) + (b : Int))

/-- The clamp sequence of one axis (src/filter/bounce.rs lines 54-61 for
x, 63-70 for y): if the advanced offset puts the area origin below 0,
reset it so origin + offset = 0 and flag the bounce; then, if
offset + extent reaches the screen limit, set the offset to
`screen - size` (a `u32` subtraction, valid for sprites that fit the
canvas) and flag the bounce. -/
def clampAxis (base : Int) (origin size screen : Nat) : Int × Bool :=
  let first := if base + origin < 0 then ((-(origin : Int)), true)
    else (base, false)
  if first.1 + size ≥ screen then (((screen - size : Nat) : Int), true)
  else first

/-- The position advance of one `Bounce` invocation: add the velocity,
then clamp both axes, returning (state with new offset, x bounced,
y bounced). -/
def bounceAdvance (st : BounceState) : BounceState × Bool × Bool :=
  let cx := clampAxis (st.base_x + st.vec_x) st.area.origin_x
    st.area.size_x st.screen_x
  let cy := clampAxis (st.base_y + st.vec_y) st.area.origin_y
    st.area.size_y st.screen_y
  ({ st with base_x := cx.1, base_y := cy.1 }, cx.2, cy.2)

/-- `change_direction` (src/filter/bounce.rs lines 133-145), with the
`random_range(VEC_RANGE)` draw passed in as `rnd`. -/
def change_direction (direction speed : Int) (invert : Bool) (rnd : Int) :
    Int :=
  let x := rnd + speed
  let x := if invert then x else -x
  if direction > 0 then -x else x

/-- The erase-marker run(s) pushed for one (already translated) pixel
when restore is active (src/filter/bounce.rs lines 76-117):
`size = VEC_RANGE.end + speed = 4 + speed` markers trail the pixel's
position on each active axis. The x-axis run steps `px.x - i` (Right
edge, moving left or bounced) or `px.x + i` (Left edge, moving right or
bounced); the y-axis run steps `px.y - i` (Bottom edge) or `px.y + i`
(Top edge). The subtractions are unchecked `u32` arithmetic. -/
def bounceRestoreRuns (vecX vecY : Int) (changeX changeY : Bool)
    (speed : Int) (px : Pixel) : List Pixel :=
  let size := (4 + speed).toNat
  (if (vecX < 0 ∨ changeX = true) ∧ px.edges.hasEdge Edge.Right = true then
    (List.range size).map fun i =>
      ⟨u32Sub px.x i, px.y, ⟨0, 0, 0, 255⟩, Edges.empty⟩
  else if (vecX > 0 ∨ changeX = true) ∧ px.edges.hasEdge Edge.Left = true then
    (List.range size).map fun i =>
      ⟨u32Add px.x i, px.y, ⟨0, 0, 0, 255⟩, Edges.empty⟩
  else []) ++
  (if (vecY < 0 ∨ changeY = true) ∧ px.edges.hasEdge Edge.Bottom = true then
    (List.range size).map fun i =>
      ⟨px.x, u32Sub px.y i, ⟨0, 0, 0, 255⟩, Edges.empty⟩
  else if (vecY > 0 ∨ changeY = true) ∧ px.edges.hasEdge Edge.Top = true then
    (List.range size).map fun i =>
      ⟨px.x, u32Add px.y i, ⟨0, 0, 0, 255⟩, Edges.empty⟩
  else [])

/-- `Bounce::transform_buffer`: advance and clamp the offset, translate
every pixel by the new offset (`(px.x as i32 + base) as u32`), append the
restore runs of each translated pixel when restore is active, then
redirect the velocity on bounced axes (`rnd1` is the first
`random_range` draw of the epilogue, `rnd2` the second). -/
def Bounce.transformBuffer (st : BounceState) (rnd1 rnd2 : Int)
    (buffer : List Pixel) (restore : Option (List Pixel)) :
    BounceState × List Pixel × Option (List Pixel) :=
  let adv := bounceAdvance st
  let st1 := adv.1
  let newBuffer := buffer.map fun px =>
    ⟨wrapU32 ((px.x : Int) + st1.base_x),
     wrapU32 ((px.y : Int) + st1.base_y), px.value, px.edges⟩
  let newRestore := match restore with
    | none => none
    | some r => some (r ++
        (newBuffer.map
          (bounceRestoreRuns st.vec_x st.vec_y adv.2.1 adv.2.2
            st.speed)).flatten)
  let st2 :=
    if adv.2.1 ∧ adv.2.2 then
      { st1 with vec_x := change_direction st1.vec_x st.speed true rnd1,
                 vec_y := change_direction st1.vec_y st.speed true rnd2 }
    else if adv.2.1 then
      { st1 with vec_x := change_direction st1.vec_x st.speed true rnd1,
                 vec_y := change_direction st1.vec_y st.speed false rnd2 }
    else if adv.2.2 then
      { st1 with vec_y := change_direction st1.vec_y st.speed true rnd1,
                 vec_x := change_direction st1.vec_x st.speed false rnd2 }
    else st1
  (st2, newBuffer, newRestore)

lemma wrapU32_eq_of_bounds (v : Int) (h0 : 0 ≤ v) (h1 : v < 2 ^ 32) :
    (wrapU32 v : Int) = v := by
  unfold wrapU32
  rw [Int.emod_eq_of_lt h0 (by exact_mod_cast h1)]
  exact Int.toNat_of_nonneg h0

lemma clampAxis_bounds (base : Int) (origin size screen : Nat)
    (hsz : size ≤ screen) :
    0 ≤ (clampAxis base origin size screen).1 + origin ∧
    (clampAxis base origin size screen).1 + size ≤ screen := by
  unfold clampAxis
  by_cases h1 : base + origin < 0 <;>
    simp only [h1, if_true, if_false, ite_true, ite_false] <;>
    split <;>
    constructor <;>
    omega

/-- State for the C8 counterexample: canvas 10×10, sprite area origin
(3, 0) with extents 5×5, offset (4, 0), velocity (2, 0). -/
def bounceCEState : BounceState := ⟨4, 0, 2, 0, 10, 10, ⟨3, 0, 5, 5⟩, 0⟩

/-- Buffer for the C8 counterexample: one pixel at (7, 0), inside the
placement area. -/
def bounceCEBuffer : List Pixel := [⟨7, 0, ⟨1, 2, 3, 255⟩, Edges.empty⟩]

/-- Counterexample to C8 as stated: the sprite fits the canvas and the
pixel lies in the placement area, yet after the invocation the Bounce
clamp (which compares `base + size` against the canvas width, ignoring
the placement origin 3) leaves the translated pixel at x = 12 on a
10-wide canvas — outside the canvas bounds. -/
theorem bounce_bounds_counterexample :
    bounceCEState.area.size_x ≤ bounceCEState.screen_x ∧
    bounceCEState.area.size_y ≤ bounceCEState.screen_y ∧
    (∀ px ∈ bounceCEBuffer,
      bounceCEState.area.origin_x ≤ px.x ∧
      px.x < bounceCEState.area.origin_x + bounceCEState.area.size_x ∧
      bounceCEState.area.origin_y ≤ px.y ∧
      px.y < bounceCEState.area.origin_y + bounceCEState.area.size_y) ∧
    ∃ q ∈ (Bounce.transformBuffer bounceCEState 0 0 bounceCEBuffer none).2.1,
      ¬(q.x < bounceCEState.screen_x) := by
  decide

/-- C8 (amended). Bounce boundary clamping: after the offset is advanced
by the velocity, each axis is clamped so that the area origin plus the
offset stays at or above 0 and the offset plus the extent stays at or
below the canvas limit — the upper clamp ignores the placement origin —
and consequently, when the placement offset is `(0, 0)` (every source
pixel inside `[0, size_x) × [0, size_y)`) and the sprite fits the canvas,
every translated pixel coordinate lies within
`[0, canvas_width) × [0, canvas_height)` after every invocation. -/
theorem bounce_clamp_in_bounds (st : BounceState) (rnd1 rnd2 : Int)
    (buffer : List Pixel) (restore : Option (List Pixel))
    (hox : st.area.origin_x = 0) (hoy : st.area.origin_y = 0)
    (hsx : st.area.size_x ≤ st.screen_x) (hsy : st.area.size_y ≤ st.screen_y)
    (hscx : st.screen_x ≤ 2 ^ 32) (hscy : st.screen_y ≤ 2 ^ 32)
    (hbuf : ∀ px ∈ buffer, px.x < st.area.size_x ∧ px.y < st.area.size_y) :
    (0 ≤ (bounceAdvance st).1.base_x + st.area.origin_x ∧
     (bounceAdvance st).1.base_x + st.area.size_x ≤ st.screen_x ∧
     0 ≤ (bounceAdvance st).1.base_y + st.area.origin_y ∧
     (bounceAdvance st).1.base_y + st.area.size_y ≤ st.screen_y) ∧
    ∀ q ∈ (Bounce.transformBuffer st rnd1 rnd2 buffer restore).2.1,
      q.x < st.screen_x ∧ q.y < st.screen_y := by
  have hx := clampAxis_bounds (st.base_x + st.vec_x) st.area.origin_x
    st.area.size_x st.screen_x hsx
  have hy := clampAxis_bounds (st.base_y + st.vec_y) st.area.origin_y
    st.area.size_y st.screen_y hsy
  have hbx : (bounceAdvance st).1.base_x =
      (clampAxis (st.base_x + st.vec_x) st.area.origin_x st.area.size_x
        st.screen_x).1 := rfl
  have hby : (bounceAdvance st).1.base_y =
      (clampAxis (st.base_y + st.vec_y) st.area.origin_y st.area.size_y
        st.screen_y).1 := rfl
  rw [← hbx] at hx
  rw [← hby] at hy
  refine ⟨⟨hx.1, hx.2, hy.1, hy.2⟩, ?_⟩
  intro q hq
  have hb : (Bounce.transformBuffer st rnd1 rnd2 buffer restore).2.1 =
      buffer.map (fun px =>
        ⟨wrapU32 ((px.x : Int) + (bounceAdvance st).1.base_x),
         wrapU32 ((px.y : Int) + (bounceAdvance st).1.base_y),
         px.value, px.edges⟩) := rfl
  rw [hb] at hq
  obtain ⟨px, hpx, rfl⟩ := List.mem_map.mp hq
  obtain ⟨hpx1, hpx2⟩ := hbuf px hpx
  obtain ⟨hx1, hx2⟩ := hx
  obtain ⟨hy1, hy2⟩ := hy
  constructor
  · show wrapU32 ((px.x : Int) + (bounceAdvance st).1.base_x) < st.screen_x
    have h0 : (0 : Int) ≤ (px.x : Int) + (bounceAdvance st).1.base_x := by
      omega
    have h2 : (px.x : Int) + (bounceAdvance st).1.base_x < 2 ^ 32 := by
      omega
    have hw := wrapU32_eq_of_bounds _ h0 h2
    omega
  · show wrapU32 ((px.y : Int) + (bounceAdvance st).1.base_y) < st.screen_y
    have h0 : (0 : Int) ≤ (px.y : Int) + (bounceAdvance st).1.base_y := by
      omega
    have h2 : (px.y : Int) + (bounceAdvance st).1.base_y < 2 ^ 32 := by
      omega
    have hw := wrapU32_eq_of_bounds _ h0 h2
    omega

/-- State for the C8 witness: canvas 10×10, placement offset (0, 0),
extents 5×5. -/
def bounceWState : BounceState := ⟨0, 0, 2, 1, 10, 10, ⟨0, 0, 5, 5⟩, 0⟩

/-- Buffer for the C8 witness: one pixel at (4, 4). -/
def bounceWBuffer : List Pixel := [⟨4, 4, ⟨1, 2, 3, 255⟩, Edges.empty⟩]

/-- Witness for C8 (amended) at the zero-origin state: the pixel (4, 4)
is translated by the advanced offset (2, 1) to (6, 5), inside the 10×10
canvas. -/
theorem bounce_clamp_in_bounds_witness :
    (⟨6, 5, ⟨1, 2, 3, 255⟩, Edges.empty⟩ : Pixel) ∈
      (Bounce.transformBuffer bounceWState 0 0 bounceWBuffer none).2.1 ∧
    ((⟨6, 5, ⟨1, 2, 3, 255⟩, Edges.empty⟩ : Pixel).x < bounceWState.screen_x ∧
     (⟨6, 5, ⟨1, 2, 3, 255⟩, Edges.empty⟩ : Pixel).y < bounceWState.screen_y) :=
  ⟨by decide,
   (bounce_clamp_in_bounds bounceWState 0 0 bounceWBuffer none rfl rfl
      (by decide) (by decide) (by decide) (by decide) (by decide)).2
     ⟨6, 5, ⟨1, 2, 3, 255⟩, Edges.empty⟩ (by decide)⟩

/-- C10. Bounce restore underflow: when restore is active, the sprite is
moving left (`vec_x < 0`), and a pixel carries the Right edge flag, the
restore run computes `px.x - i` on the already-translated `u32`
x-coordinate for every `i in 0..(4 + speed)` with no lower-bound check;
whenever the translated x-coordinate satisfies `x + 1 < 4 + speed`, the
step `i = x + 1` underflows and the emitted restore pixel carries the
wrapped coordinate `2^32 - 1` instead of being clipped. (The `y`
direction behaves symmetrically for the Bottom edge.) -/
theorem bounce_restore_underflow (st : BounceState) (rnd1 rnd2 : Int)
    (buffer r0 : List Pixel) (px : Pixel)
    (hpx : px ∈ buffer) (hR : px.edges.hasEdge Edge.Right = true)
    (hvx : st.vec_x < 0)
    (ht : wrapU32 ((px.x : Int) + (bounceAdvance st).1.base_x) + 1 <
      (4 + st.speed).toNat) :
    ∃ m ∈ (Bounce.transformBuffer st rnd1 rnd2 buffer (some r0)).2.2.getD [],
      m.x = 2 ^ 32 - 1 := by
  have hres : (Bounce.transformBuffer st rnd1 rnd2 buffer (some r0)).2.2 =
      some (r0 ++
        ((buffer.map fun p =>
          (⟨wrapU32 ((p.x : Int) + (bounceAdvance st).1.base_x),
            wrapU32 ((p.y : Int) + (bounceAdvance st).1.base_y),
            p.value, p.edges⟩ : Pixel)).map
          (bounceRestoreRuns st.vec_x st.vec_y (bounceAdvance st).2.1
            (bounceAdvance st).2.2 st.speed)).flatten) := rfl
  rw [hres, Option.getD_some]
  set t := wrapU32 ((px.x : Int) + (bounceAdvance st).1.base_x) with hts
  refine ⟨⟨u32Sub t (t + 1),
    wrapU32 ((px.y : Int) + (bounceAdvance st).1.base_y),
    ⟨0, 0, 0, 255⟩, Edges.empty⟩, ?_, ?_⟩
  · apply List.mem_append_right
    rw [List.mem_flatten]
    refine ⟨bounceRestoreRuns st.vec_x st.vec_y (bounceAdvance st).2.1
      (bounceAdvance st).2.2 st.speed
      ⟨t, wrapU32 ((px.y : Int) + (bounceAdvance st).1.base_y),
        px.value, px.edges⟩, ?_, ?_⟩
    · exact List.mem_map.mpr
        ⟨⟨t, wrapU32 ((px.y : Int) + (bounceAdvance st).1.base_y),
          px.value, px.edges⟩,
         List.mem_map.mpr ⟨px, hpx, rfl⟩, rfl⟩
    · unfold bounceRestoreRuns
      dsimp only
      rw [if_pos ⟨Or.inl hvx, hR⟩]
      apply List.mem_append_left
      exact List.mem_map.mpr ⟨t + 1, List.mem_range.mpr ht, rfl⟩
  · show u32Sub t (t + 1) = 2 ^ 32 - 1
    unfold u32Sub wrapU32
    have hneg : ((t : Int) - ((t + 1 : Nat) : Int)) = -1 := by
      push_cast
      ring
    rw [hneg]
    decide

/-- State for the C10 witness: canvas 100×100, a 2×1 sprite at origin
(0, 0), moving left (`vec_x = -1`), speed 0. -/
def bounceUState : BounceState := ⟨0, 0, -1, 0, 100, 100, ⟨0, 0, 2, 1⟩, 0⟩

/-- Buffer for the C10 witness: the sprite's right-edge pixel at (1, 0),
Right edge flag set. -/
def bounceUBuffer : List Pixel :=
  [⟨1, 0, ⟨1, 2, 3, 255⟩, Edges.new [Edge.Right]⟩]

/-- Witness for C10: the left bounce clamps the offset to 0, the
translated right-edge pixel sits at x = 1, the run length is 4, and step
`i = 2` wraps to `2^32 - 1`. -/
theorem bounce_restore_underflow_witness :
    ∃ m ∈ (Bounce.transformBuffer bounceUState 0 0 bounceUBuffer
        (some [])).2.2.getD [],
      m.x = 2 ^ 32 - 1 :=
  bounce_restore_underflow bounceUState 0 0 bounceUBuffer []
    ⟨1, 0, ⟨1, 2, 3, 255⟩, Edges.new [Edge.Right]⟩ (by decide) (by decide)
    (by decide) (by decide)
